import Mathlib

/-!
Shallow embedding of the label-resolution / query-filter-synthesis subsystem
of the hubspot middleware (src/services/encyclopedia_resolver.py,
src/services/hierarchical_encyclopedia_resolver.py, src/services/value_discovery.py).

Python strings are modelled as Lean `String` (a list of characters); the
queries and labels exercised here are ASCII, and `str.lower` is modelled by
the ASCII case map `lower` below.  Python dictionaries (which preserve
insertion order and have unique keys) are modelled as association lists in
insertion order, with `List.lookup` as `dict[k]` / `k in dict`.
-/

namespace HubSpot

/-- ASCII lower-casing of one character, the ASCII fragment of Python str.lower. -/
def lower_char (c : Char) : Char :=
  if 65 ≤ c.toNat ∧ c.toNat ≤ 90 then Char.ofNat (c.toNat + 32) else c

/-- ASCII lower-casing of a string (Python `s.lower()` on ASCII data). -/
def lower (s : String) : String := ⟨s.data.map lower_char⟩

/-- Python substring containment `needle in haystack`. -/
def pyIn (needle haystack : String) : Bool :=
  haystack.data.tails.any fun t => needle.data.isPrefixOf t

/-- Characters Python `str.split()` (no arguments) splits on. -/
def is_py_space (c : Char) : Bool :=
  c == ' ' || c == '\t' || c == '\n' || c == '\r' || c == '\x0b' || c == '\x0c'

/-- Helper for `runsBy`: `cur` is the reversed run collected so far. -/
def runsByAux (keep : Char → Bool) (cur : List Char) : List Char → List (List Char)
  | [] => if cur.isEmpty then [] else [cur.reverse]
  | c :: rest =>
    if keep c then runsByAux keep (c :: cur) rest
    else if cur.isEmpty then runsByAux keep [] rest
    else cur.reverse :: runsByAux keep [] rest

/-- Maximal runs of characters satisfying `keep` (used for `str.split()` and
for `re.findall(r"\b\w+\b", s)`). -/
def runsBy (keep : Char → Bool) (l : List Char) : List (List Char) :=
  runsByAux keep [] l

/-- Python `s.split()`: whitespace-separated words, no empties. -/
def pySplit (s : String) : List String :=
  (runsBy (fun c => !is_py_space c) s.data).map fun l => String.mk l

/-- A regex `\w` character (ASCII fragment used by the resolver). -/
def is_word_char (c : Char) : Bool := c.isAlphanum || c == '_'

/-- Python `s.split("_")` (keeps empty pieces). -/
def splitOnChar (sep : Char) : List Char → List (List Char)
  | [] => [[]]
  | c :: rest =>
    match splitOnChar sep rest with
    | [] => [[c]]
    | h :: t => if c == sep then [] :: h :: t else (c :: h) :: t

/-- Python `s.rstrip("s")`. -/
def rstrip_s (s : String) : String := ⟨(s.data.reverse.dropWhile (fun c => c == 's')).reverse⟩

/-! ## Data model

`Filter` mirrors the filter dicts the resolvers build: every construction site
in both resolver files writes exactly the keys `propertyName`, `operator` and
`value` (never a plural `values`), so the embedding is a structure with exactly
those three fields. -/

structure Filter where
  propertyName : String
  operator : String
  value : String
deriving DecidableEq

/-- One property's value mapping: human label → internal value, in dict
(insertion) order. -/
abbrev ValueMapping := List (String × String)

/-- `value_mappings`: property name → its `ValueMapping`, in dict order. -/
abbrev ValueMappings := List (String × ValueMapping)

/-- One object type's encyclopedia as the flat resolver uses it
(`data.get('value_mappings', {})`). -/
structure Encyclopedia where
  value_mappings : ValueMappings
deriving DecidableEq

/-! ## Value Index lookup (src/services/value_discovery.py) -/

/-- `get_property_value_mapping`: the mapping for one property, `{}` when the
property has none (`all_mappings.get(property_name, {})`). -/
def get_property_value_mapping (all_mappings : ValueMappings) (property_name : String) :
    ValueMapping :=
  (all_mappings.lookup property_name).getD []

/-- `map_value_to_internal` (value_discovery.py lines 158-188): exact match,
then case-insensitive match, then substring match in either direction, else
the original value unchanged. -/
def map_value_to_internal (all_mappings : ValueMappings) (property_name human_value : String) :
    String :=
  let value_mapping := get_property_value_mapping all_mappings property_name
  match value_mapping.lookup human_value with
  | some v => v
  | none =>
    match value_mapping.find? (fun p => lower p.1 == lower human_value) with
    | some p => p.2
    | none =>
      match value_mapping.find? (fun p =>
          pyIn (lower human_value) (lower p.1) || pyIn (lower p.1) (lower human_value)) with
      | some p => p.2
      | none => human_value

/-! ## Flat resolver (src/services/encyclopedia_resolver.py) -/

/-- The ownership cues of `_resolve_owner_queries`. -/
def owner_indicators : List String := ["owner", "owned by", "'s", "portfolio"]

/-- `has_owner_context`: the query mentions ownership explicitly. -/
def has_owner_context (query : String) : Bool :=
  owner_indicators.any fun ind => pyIn ind query

/-- Exact full-name owner match: the whole lowercased label, plain or
possessive, occurs in the (lowercased) query. -/
def owner_exact_match (query label : String) : Bool :=
  pyIn (lower label) query || pyIn (lower label ++ "'s") query

/-- Possessive first-name partial owner match: the label has a space, the query
has a possessive marker, and the label's first word plus "'s" occurs in the
query (`owner_label.split()[0].lower()`; Python would raise on an all-space
label, which real owner names never are — `headD ""` stands in for that case). -/
def owner_partial_match (query label : String) : Bool :=
  pyIn " " label && pyIn "'s" query &&
    pyIn (lower ((pySplit label).headD "") ++ "'s") query

/-- The scan over one owner property's mappings: exact-match owner ids in
iteration order, and partial matches as (owner_id, owner_lower) pairs.
A label is tried for a partial match only when its exact match failed
(the `continue` in the source loop). -/
def owner_scan (query : String) : ValueMapping → List String × List (String × String)
  | [] => ([], [])
  | (label, owner_id) :: rest =>
    if owner_exact_match query label then
      (owner_id :: (owner_scan query rest).1, (owner_scan query rest).2)
    else if owner_partial_match query label then
      ((owner_scan query rest).1, (owner_id, lower label) :: (owner_scan query rest).2)
    else owner_scan query rest

/-- The comparison step of Python `max(..., key=lambda x: len(x[2]))`: a later
element replaces the running best only when strictly longer. -/
def max_step (best y : String × String) : String × String :=
  if y.2.length > best.2.length then y else best

/-- Python `max(partial_matches, key=lambda x: len(x[2]))`: the first element
whose owner_lower is longest (`max` keeps the earliest maximum). -/
def max_by_label_len : List (String × String) → Option (String × String)
  | [] => none
  | x :: xs => some (xs.foldl max_step x)

/-- The filter(s) one owner property contributes: an exact match first
(`exact_matches[0]`), else the longest partial match, else nothing. -/
def owner_filters_for_prop (query : String) (owner_prop : String) (m : ValueMapping) :
    List Filter :=
  match owner_scan query m with
  | (owner_id :: _, _) => [⟨owner_prop, "EQ", owner_id⟩]
  | ([], partials) =>
    match max_by_label_len partials with
    | some (owner_id, _) => [⟨owner_prop, "EQ", owner_id⟩]
    | none => []

/-- The loop of `_resolve_owner_queries` over the two owner property aliases:
skip an absent property, skip everything without an ownership cue, and return
on the first property that yields a filter. -/
def owner_props_loop (query : String) (value_mappings : ValueMappings) :
    List String → List Filter
  | [] => []
  | owner_prop :: rest =>
    match value_mappings.lookup owner_prop with
    | none => owner_props_loop query value_mappings rest
    | some m =>
      if has_owner_context query then
        match owner_filters_for_prop query owner_prop m with
        | [] => owner_props_loop query value_mappings rest
        | fs => fs
      else owner_props_loop query value_mappings rest

/-- `_resolve_owner_queries` (encyclopedia_resolver.py lines 203-260). -/
def _resolve_owner_queries (query : String) (value_mappings : ValueMappings) : List Filter :=
  owner_props_loop query value_mappings ["hubspot_owner_id", "company_owner"]

/-- `_resolve_status_queries` (lines 262-279): first `account_status` label
found in the query wins. -/
def _resolve_status_queries (query : String) (value_mappings : ValueMappings) : List Filter :=
  match value_mappings.lookup "account_status" with
  | none => []
  | some status_mappings =>
    match status_mappings.find? (fun p => pyIn (lower p.1) query) with
    | some p => [⟨"account_status", "EQ", p.2⟩]
    | none => []

/-- The search terms tried for one industry label (label, label without plural
"s", and "tech" for technology labels; Python drops falsy terms). -/
def industry_terms (label : String) : List String :=
  [lower label, rstrip_s (lower label)] ++
    (if pyIn "technology" (lower label) then ["tech"] else [])

/-- The loop of `_resolve_industry_queries`: first label whose terms hit wins. -/
def industry_loop (query : String) : ValueMapping → List Filter
  | [] => []
  | (label, internal_value) :: rest =>
    if (industry_terms label).any (fun t => !(t == "") && pyIn t query) then
      [⟨"industry", "EQ", internal_value⟩]
    else industry_loop query rest

/-- `_resolve_industry_queries` (lines 281-305). -/
def _resolve_industry_queries (query : String) (value_mappings : ValueMappings) : List Filter :=
  match value_mappings.lookup "industry" with
  | none => []
  | some industry_mappings => industry_loop query industry_mappings

/-- The tier synonym table of `_resolve_tier_queries`. -/
def tier_terms : List (String × List String) :=
  [("enterprise", ["enterprise", "large", "big"]),
   ("small", ["small", "startup"]),
   ("professional", ["professional", "pro"]),
   ("standard", ["standard", "regular"])]

/-- The loop of `_resolve_tier_queries`: first tier whose synonyms hit wins. -/
def tier_loop (query : String) : ValueMapping → List Filter
  | [] => []
  | (label, internal_value) :: rest =>
    if ((tier_terms.lookup (lower label)).getD [lower label]).any (fun t => pyIn t query) then
      [⟨"customer_tier", "EQ", internal_value⟩]
    else tier_loop query rest

/-- `_resolve_tier_queries` (lines 307-337). -/
def _resolve_tier_queries (query : String) (value_mappings : ValueMappings) : List Filter :=
  match value_mappings.lookup "customer_tier" with
  | none => []
  | some tier_mappings => tier_loop query tier_mappings

/-- The location table of `_resolve_location_queries`: query term → stored
value; a 2-character value is a state code, anything longer a city. -/
def cities : List (String × String) :=
  [("dallas", "Dallas"), ("texas", "TX"), ("houston", "Houston"), ("austin", "Austin"),
   ("san antonio", "San Antonio"), ("new york", "New York"), ("chicago", "Chicago"),
   ("los angeles", "Los Angeles"), ("miami", "Miami"), ("atlanta", "Atlanta"),
   ("denver", "Denver"), ("seattle", "Seattle"), ("portland", "Portland"),
   ("phoenix", "Phoenix"), ("salt lake city", "Salt Lake City"), ("provo", "Provo"),
   ("utah", "UT")]

/-- `_resolve_location_queries` (lines 339-390): collect city and state matches
separately, then prefer cities over states.  `value_mappings` is accepted and
ignored, as in the source. -/
def _resolve_location_queries (query : String) (_value_mappings : ValueMappings) :
    List Filter :=
  let matched := cities.filter fun p => pyIn p.1 query
  let city_filters := (matched.filter fun p => !(p.2.length == 2)).map
    fun p => (⟨"city", "EQ", p.2⟩ : Filter)
  let state_filters := (matched.filter fun p => p.2.length == 2).map
    fun p => (⟨"state", "EQ", p.2⟩ : Filter)
  if !city_filters.isEmpty then city_filters
  else state_filters

/-- The properties the specific category resolvers already claim; the generic
fallback skips them. -/
def handled_properties : List String :=
  ["hubspot_owner_id", "company_owner", "account_status", "industry", "customer_tier"]

/-- `_resolve_generic_queries` (lines 392-412): for every other property, the
first label of length > 2 whose lowercased form occurs in the query yields an
equality filter (at most one per property). -/
def _resolve_generic_queries (query : String) : ValueMappings → List Filter
  | [] => []
  | (property_name, property_values) :: rest =>
    if property_name ∈ handled_properties then _resolve_generic_queries query rest
    else
      match property_values.find? (fun lv => lv.1.length > 2 && pyIn (lower lv.1) query) with
      | some lv => ⟨property_name, "EQ", lv.2⟩ :: _resolve_generic_queries query rest
      | none => _resolve_generic_queries query rest

/-- The renewal vocabulary of `_resolve_date_queries`. -/
def renewal_terms_flat : List String :=
  ["renewal", "renew", "texting renewal", "text renewal", "upcoming renewal"]

/-- The tokens marking a property name as renewal/expiry-related. -/
def date_property_tokens : List String := ["renewal", "renew", "next_", "due", "expire"]

/-- `_resolve_date_queries` (lines 414-441): on a renewal term, look at the
renewal-related property names; the loop body `break`s unconditionally, so only
the first such property is examined, and it yields a `HAS_PROPERTY` filter only
when the query also contains "upcoming" or "next". -/
def _resolve_date_queries (query : String) (value_mappings : ValueMappings) : List Filter :=
  if renewal_terms_flat.any (fun t => pyIn t query) then
    match (value_mappings.map Prod.fst).filter
        (fun pn => date_property_tokens.any fun t => pyIn t (lower pn)) with
    | [] => []
    | prop :: _ =>
      if pyIn "upcoming" query || pyIn "next" query then
        [⟨prop, "HAS_PROPERTY", ""⟩]
      else []
  else []

/-- `resolve_query_to_filters` (lines 152-201): look up the object type's
encyclopedia, lowercase the query, and concatenate the category resolvers'
filters in the fixed order owner, status, industry, tier, location, date,
generic. -/
def resolve_query_to_filters (cache : List (String × Encyclopedia))
    (object_type user_query : String) : List Filter :=
  match cache.lookup object_type with
  | none => []
  | some data =>
    let query_lower := lower user_query
    let vm := data.value_mappings
    _resolve_owner_queries query_lower vm
      ++ _resolve_status_queries query_lower vm
      ++ _resolve_industry_queries query_lower vm
      ++ _resolve_tier_queries query_lower vm
      ++ _resolve_location_queries query_lower vm
      ++ _resolve_date_queries query_lower vm
      ++ _resolve_generic_queries query_lower vm

/-! ## Hierarchical resolver (src/services/hierarchical_encyclopedia_resolver.py) -/

/-- One property's record inside a group (`{"label": ..., "value_mappings": ...}`;
an absent/falsy `value_mappings` is the empty list). -/
structure PropInfo where
  label : String
  value_mappings : ValueMapping
deriving DecidableEq

/-- One property group (`{"display_name": ..., "properties": ..., "property_count": ...}`). -/
structure GroupData where
  display_name : String
  properties : List (String × PropInfo)
  property_count : Nat
deriving DecidableEq

/-- The hierarchical cache entry for one object type (`data["groups"]`). -/
structure HierData where
  groups : List (String × GroupData)
deriving DecidableEq

/-- The `group_info` records `_identify_relevant_groups` returns.
`matched_keywords` is `list(common_words)` in the source; a Python set has no
specified order, so the embedding lists the matching query words in query-word
order (the choice never influences any other computation). -/
structure GroupInfo where
  name : String
  display_name : String
  properties : List (String × PropInfo)
  property_count : Nat
  relevance_score : Nat
  matched_keywords : List String
deriving DecidableEq

/-- `_build_group_keywords` (hierarchical_encyclopedia_resolver.py lines 29-51)
for one group: words of the display label, underscore-split tokens of each
property's internal name, and words of each property's label (the source stores
these as a set per group; membership in this list is set membership). -/
def _build_group_keywords (g : GroupData) : List String :=
  pySplit (lower g.display_name)
    ++ (g.properties.map fun p =>
          ((splitOnChar '_' (lower p.1).data).map fun l => String.mk l)
            ++ pySplit (lower p.2.label)).flatten

/-- `set(re.findall(r"\b\w+\b", query_lower))`: the distinct words of the
lowercased query. -/
def query_words (user_query : String) : List String :=
  ((runsBy is_word_char (lower user_query).data).map fun l => String.mk l).dedup

/-- The relevance score of one group (lines 116-124): the number of distinct
query words in the group's keyword set, plus 2 for each distinct query word
that occurs as a substring of the group's display label. -/
def relevance_score (qw : List String) (g : GroupData) : Nat :=
  (qw.filter fun w => decide (w ∈ _build_group_keywords g)).length
    + 2 * (qw.filter fun w => pyIn w (lower g.display_name)).length

/-- The groups that score above 0, as `group_info` records, in discovery
(dict) order (lines 112-137). -/
def scored_candidates (qw : List String) (groups : List (String × GroupData)) :
    List GroupInfo :=
  groups.filterMap fun p =>
    if relevance_score qw p.2 > 0 then
      some ⟨p.1, p.2.display_name, p.2.properties, p.2.property_count,
            relevance_score qw p.2,
            qw.filter fun w => decide (w ∈ _build_group_keywords p.2)⟩
    else none

/-- Stable insertion step for Python's `list.sort(key=..., reverse=True)`:
the new element goes in front of the first entry whose score is not larger
(earlier elements of the original list are inserted later, so equal scores
keep their original order). -/
def insert_by_score_desc (x : GroupInfo) : List GroupInfo → List GroupInfo
  | [] => [x]
  | y :: ys =>
    if x.relevance_score ≥ y.relevance_score then x :: y :: ys
    else y :: insert_by_score_desc x ys

/-- Python's stable `sort(key=lambda x: x["relevance_score"], reverse=True)`. -/
def sort_by_score_desc : List GroupInfo → List GroupInfo
  | [] => []
  | x :: xs => insert_by_score_desc x (sort_by_score_desc xs)

/-- The fixed fallback priority list of lines 143-144. -/
def common_groups : List String :=
  ["company_information", "companyinformation", "billing_information", "customer_success"]

/-- The fallback entries (lines 143-154): each common group key present in the
cache, in the fixed order, with relevance score 0. -/
def fallback_groups (groups : List (String × GroupData)) : List GroupInfo :=
  common_groups.filterMap fun k =>
    (groups.lookup k).map fun gd =>
      ⟨k, gd.display_name, gd.properties, gd.property_count, 0, []⟩

/-- The groups of one cached object type
(`self._hierarchical_cache.get(object_type, {}).get("groups", {})`). -/
def hier_groups (hcache : List (String × HierData)) (object_type : String) :
    List (String × GroupData) :=
  ((hcache.lookup object_type).map HierData.groups).getD []

/-- `_identify_relevant_groups` (lines 98-156): score every group, keep the
positive scores sorted descending (stable), fall back to the common groups when
nothing scored, and truncate to the top 5. -/
def _identify_relevant_groups (hcache : List (String × HierData))
    (object_type user_query : String) : List GroupInfo :=
  let qw := query_words user_query
  let groups := hier_groups hcache object_type
  let relevant_groups := sort_by_score_desc (scored_candidates qw groups)
  (if relevant_groups.isEmpty then fallback_groups groups else relevant_groups).take 5

/-- The name key derived from the caller's email in `_resolve_owner_in_group`:
local part of the email, lowercased, with "." and "_" turned into spaces. -/
def email_parts_of (user_email : String) : String :=
  ⟨((lower user_email).data.takeWhile fun c => !(c == '@')).map fun c =>
      if c == '.' || c == '_' then ' ' else c⟩

/-- The "my name" email match of lines 232-245 against one owner mapping. -/
def email_owner_find (user_email : String) (owner_mappings : ValueMapping) :
    Option (String × String) :=
  owner_mappings.find? fun p =>
    let owner_lower := lower p.1
    pyIn (email_parts_of user_email) owner_lower
      || (pySplit (email_parts_of user_email)).any fun part => pyIn part owner_lower

/-- The guarded email branch of `_resolve_owner_in_group` (lines 232-245): it
applies only on a "my name" query with a truthy user email containing "@". -/
def owner_email_hit (query : String) (user_email : Option String)
    (owner_mappings : ValueMapping) : Option (String × String) :=
  match user_email with
  | none => none
  | some e =>
    if (pyIn "my name" query || pyIn "in my name" query) && !(e == "")
        && pyIn "@" e then
      email_owner_find e owner_mappings
    else none

/-- `_resolve_owner_in_group` (lines 220-258): first owner-labelled property
with value mappings whose owners match — by the caller's email on a "my name"
query, else by explicit (possibly possessive) name — yields one equality
filter. -/
def _resolve_owner_in_group (query : String) (user_email : Option String) :
    List (String × PropInfo) → List Filter
  | [] => []
  | (prop_name, prop_info) :: rest =>
    if pyIn "owner" (lower prop_info.label) && !prop_info.value_mappings.isEmpty then
      match owner_email_hit query user_email prop_info.value_mappings with
      | some p => [⟨prop_name, "EQ", p.2⟩]
      | none =>
        match prop_info.value_mappings.find? (fun p =>
            pyIn (lower p.1) query || pyIn (lower p.1 ++ "'s") query) with
        | some p => [⟨prop_name, "EQ", p.2⟩]
        | none => _resolve_owner_in_group query user_email rest
    else _resolve_owner_in_group query user_email rest

/-- `_resolve_status_in_group` (lines 260-279): first status/stage-labelled
property with a label found in the query yields one equality filter. -/
def _resolve_status_in_group (query : String) : List (String × PropInfo) → List Filter
  | [] => []
  | (prop_name, prop_info) :: rest =>
    if (pyIn "status" (lower prop_info.label) || pyIn "stage" (lower prop_info.label))
        && !prop_info.value_mappings.isEmpty then
      match prop_info.value_mappings.find? (fun p => pyIn (lower p.1) query) with
      | some p => [⟨prop_name, "EQ", p.2⟩]
      | none => _resolve_status_in_group query rest
    else _resolve_status_in_group query rest

/-- The renewal vocabulary of `_resolve_date_in_group`. -/
def renewal_terms_hier : List String := ["renewal", "renew", "texting renewal", "upcoming"]

/-- The loop of `_resolve_date_in_group` (lines 289-309): on the first
renewal-labelled property the running filter list (empty until here) receives
one `HAS_PROPERTY` filter — `insert(0, ...)` for a "texting" label, `append`
otherwise, which build the same one-element list — and `filters[:1]` is
returned. -/
def date_group_loop (_query : String) : List (String × PropInfo) → List Filter
  | [] => []
  | (prop_name, prop_info) :: rest =>
    if pyIn "renewal" (lower prop_info.label) || pyIn "renew" (lower prop_info.label) then
      (if pyIn "texting" (lower prop_info.label) then
        [(⟨prop_name, "HAS_PROPERTY", ""⟩ : Filter)]
      else [⟨prop_name, "HAS_PROPERTY", ""⟩]).take 1
    else date_group_loop _query rest

/-- `_resolve_date_in_group` (lines 281-311). -/
def _resolve_date_in_group (query : String) (properties : List (String × PropInfo)) :
    List Filter :=
  if renewal_terms_hier.any (fun t => pyIn t query) then date_group_loop query properties
  else []

/-- The per-group body of `_resolve_query_to_filters_hierarchical`
(lines 199-216): owner, status and date resolution within one group. -/
def group_filters (query : String) (user_email : Option String) (g : GroupInfo) :
    List Filter :=
  _resolve_owner_in_group query user_email g.properties
    ++ _resolve_status_in_group query g.properties
    ++ _resolve_date_in_group query g.properties

/-- The group loop of `_resolve_query_to_filters_hierarchical`: stop at the
first group that yields any filter. -/
def hier_group_loop (query : String) (user_email : Option String) :
    List GroupInfo → List Filter
  | [] => []
  | g :: rest =>
    match group_filters query user_email g with
    | [] => hier_group_loop query user_email rest
    | fs => fs

/-- `_resolve_query_to_filters_hierarchical` (lines 193-218): lowercase the
query and resolve owner/status/date per relevant group, stopping at the first
group that produced filters. -/
def _resolve_query_to_filters_hierarchical (user_query : String)
    (relevant_groups : List GroupInfo) (user_email : Option String) : List Filter :=
  hier_group_loop (lower user_query) user_email relevant_groups

/-! ## Concrete instances used by the claim theorems and witnesses -/

/-- The end-to-end scenario cache: owner "Tyler Beagley" → "123" under
`hubspot_owner_id`, status label "Active" → "evaluating" under
`account_status`. -/
def scenario_cache : List (String × Encyclopedia) :=
  [("companies", ⟨[("hubspot_owner_id", [("Tyler Beagley", "123")]),
                   ("account_status", [("Active", "evaluating")])]⟩)]

/-- An owner directory with two owners sharing a first name. -/
def tyler_owner_directory : ValueMapping := [("Tyler Beagley", "123"), ("Tyler Price", "456")]

/-- Two labels that collide case-insensitively but map to different internal
values (a legal Python dict: the keys differ case-sensitively). -/
def collision_mappings : ValueMappings :=
  [("account_status", [("Active", "x"), ("ACTIVE", "y")])]

/-- Groups for the group-relevance scenario: "Customer Success" first in
discovery order, "Billing Information" second. -/
def c5_groups : List (String × GroupData) :=
  [("customer_success", ⟨"Customer Success",
      [("contact_owner", ⟨"Contact Owner", []⟩)], 1⟩),
   ("billing_information", ⟨"Billing Information",
      [("billing_status", ⟨"Billing Status", [("Active", "paid")]⟩)], 1⟩)]

/-- The hierarchical cache holding `c5_groups`. -/
def c5_cache : List (String × HierData) := [("companies", ⟨c5_groups⟩)]

/-- A cache whose single group matches none of the fixed common group keys. -/
def no_common_cache : List (String × HierData) :=
  [("companies", ⟨[("zzz_group", ⟨"Zzz", [], 0⟩)]⟩)]

/-- Group properties where a generic renewal property precedes a "texting"
renewal property in discovery order. -/
def renewal_properties : List (String × PropInfo) :=
  [("next_renewal_date", ⟨"Next Renewal Date", []⟩),
   ("texting_renewal_date", ⟨"Texting Renewal Date", []⟩)]

/-- A relevant group carrying an account-status property, for the hierarchical
resolver's witnesses. -/
def status_group : GroupInfo :=
  ⟨"company_information", "Company Information",
   [("account_status", ⟨"Account Status", [("Active", "evaluating")]⟩)], 1, 3, []⟩

/-- Value mappings exercising the generic fallback: one handled property and
one unhandled property with a short label and a long label. -/
def c9_mappings : ValueMappings :=
  [("account_status", [("Active", "x")]),
   ("sports_team", [("ab", "1"), ("Dallas Cowboys", "cb1")])]

/-! ## Helper lemmas -/

theorem lookup_mem {β : Type} {l : List (String × β)} {k : String} {v : β}
    (h : l.lookup k = some v) : (k, v) ∈ l := by
  obtain ⟨l₁, l₂, rfl, -⟩ := List.lookup_eq_some_iff.mp h
  exact List.mem_append.mpr (Or.inr (List.mem_cons_self _ _))

/-! ## Claim C1 -/

/-- C1: `resolve_query_to_filters` returns the category resolvers' filters
concatenated in the fixed order owner, status, industry, tier, location, date,
generic, and on the end-to-end scenario (object type "companies", query
"Tyler Beagley's active companies in Dallas", encyclopedia `scenario_cache`)
it resolves to exactly `hubspot_owner_id EQ "123"`, `account_status EQ
"evaluating"`, `city EQ "Dallas"`, in this order and nothing else. -/
theorem claim_C1_category_order :
    (∀ (cache : List (String × Encyclopedia)) (object_type user_query : String)
        (d : Encyclopedia), cache.lookup object_type = some d →
      resolve_query_to_filters cache object_type user_query
        = _resolve_owner_queries (lower user_query) d.value_mappings
          ++ _resolve_status_queries (lower user_query) d.value_mappings
          ++ _resolve_industry_queries (lower user_query) d.value_mappings
          ++ _resolve_tier_queries (lower user_query) d.value_mappings
          ++ _resolve_location_queries (lower user_query) d.value_mappings
          ++ _resolve_date_queries (lower user_query) d.value_mappings
          ++ _resolve_generic_queries (lower user_query) d.value_mappings)
    ∧ resolve_query_to_filters scenario_cache "companies"
        "Tyler Beagley's active companies in Dallas"
      = [⟨"hubspot_owner_id", "EQ", "123"⟩, ⟨"account_status", "EQ", "evaluating"⟩,
         ⟨"city", "EQ", "Dallas"⟩] := by
  constructor
  · intro cache object_type user_query d h
    simp only [resolve_query_to_filters, h]
  · decide

/-- Witness for C1: the ordering contract applied at the concrete scenario. -/
theorem claim_C1_category_order_witness :
    scenario_cache.lookup "companies"
        = some ⟨[("hubspot_owner_id", [("Tyler Beagley", "123")]),
                 ("account_status", [("Active", "evaluating")])]⟩
    ∧ resolve_query_to_filters scenario_cache "companies"
        "Tyler Beagley's active companies in Dallas"
      = _resolve_owner_queries (lower "Tyler Beagley's active companies in Dallas")
            [("hubspot_owner_id", [("Tyler Beagley", "123")]),
             ("account_status", [("Active", "evaluating")])]
          ++ _resolve_status_queries (lower "Tyler Beagley's active companies in Dallas")
            [("hubspot_owner_id", [("Tyler Beagley", "123")]),
             ("account_status", [("Active", "evaluating")])]
          ++ _resolve_industry_queries (lower "Tyler Beagley's active companies in Dallas")
            [("hubspot_owner_id", [("Tyler Beagley", "123")]),
             ("account_status", [("Active", "evaluating")])]
          ++ _resolve_tier_queries (lower "Tyler Beagley's active companies in Dallas")
            [("hubspot_owner_id", [("Tyler Beagley", "123")]),
             ("account_status", [("Active", "evaluating")])]
          ++ _resolve_location_queries (lower "Tyler Beagley's active companies in Dallas")
            [("hubspot_owner_id", [("Tyler Beagley", "123")]),
             ("account_status", [("Active", "evaluating")])]
          ++ _resolve_date_queries (lower "Tyler Beagley's active companies in Dallas")
            [("hubspot_owner_id", [("Tyler Beagley", "123")]),
             ("account_status", [("Active", "evaluating")])]
          ++ _resolve_generic_queries (lower "Tyler Beagley's active companies in Dallas")
            [("hubspot_owner_id", [("Tyler Beagley", "123")]),
             ("account_status", [("Active", "evaluating")])] :=
  ⟨rfl, claim_C1_category_order.1 scenario_cache "companies"
    "Tyler Beagley's active companies in Dallas" _ rfl⟩

/-! ## Claim C3 -/

/-- C3 counterexample: with labels "Active" → "x" and "ACTIVE" → "y" under one
property, the claim's consequence fails for L = "ACTIVE", V = "y":
`map_value_to_internal` applied to `lower "ACTIVE"` resolves to "x" (the first
case-insensitive match), not to "y". -/
theorem claim_C3_counterexample :
    ("ACTIVE", "y") ∈ get_property_value_mapping collision_mappings "account_status"
    ∧ map_value_to_internal collision_mappings "account_status" (lower "ACTIVE") = "x"
    ∧ ¬ map_value_to_internal collision_mappings "account_status" (lower "ACTIVE") = "y" := by
  decide

/-- C3 (amended): the three-stage lookup resolves any string that is
case-insensitively equal to a known label L to L's internal value V, provided
every label case-insensitively equal to L maps to V (in particular L itself,
L.upper() and L.lower() all resolve to V then). -/
theorem claim_C3_case_insensitive_lookup (all_mappings : ValueMappings)
    (property_name L V M : String)
    (hmem : (L, V) ∈ get_property_value_mapping all_mappings property_name)
    (huniq : ∀ p ∈ get_property_value_mapping all_mappings property_name,
        lower p.1 = lower L → p.2 = V)
    (hM : lower M = lower L) :
    map_value_to_internal all_mappings property_name M = V := by
  unfold map_value_to_internal
  cases hlk : (get_property_value_mapping all_mappings property_name).lookup M with
  | some v =>
    simp only [hlk]
    exact huniq (M, v) (lookup_mem hlk) hM
  | none =>
    cases hfd : (get_property_value_mapping all_mappings property_name).find?
        (fun p => lower p.1 == lower M) with
    | some p =>
      simp only [hlk, hfd]
      have hpred : lower p.1 = lower M := by
        have h' := List.find?_some hfd
        simpa using h'
      exact huniq p (List.mem_of_find?_eq_some hfd) (hpred.trans hM)
    | none =>
      exfalso
      have := List.find?_eq_none.mp hfd (L, V) hmem
      simp only [beq_iff_eq] at this
      exact this hM.symm

/-- Witness for C3's amended theorem: "Active" → "evaluating" is resolved by
"Active", by "ACTIVE" and by "active" alike. -/
theorem claim_C3_case_insensitive_lookup_witness :
    ("Active", "evaluating")
        ∈ get_property_value_mapping [("account_status", [("Active", "evaluating")])]
            "account_status"
    ∧ lower "ACTIVE" = lower "Active"
    ∧ lower "active" = lower "Active"
    ∧ map_value_to_internal [("account_status", [("Active", "evaluating")])]
        "account_status" "ACTIVE" = "evaluating"
    ∧ map_value_to_internal [("account_status", [("Active", "evaluating")])]
        "account_status" "active" = "evaluating" :=
  ⟨by decide, by decide, by decide,
   claim_C3_case_insensitive_lookup _ "account_status" "Active" "evaluating" "ACTIVE"
     (by decide) (by decide) (by decide),
   claim_C3_case_insensitive_lookup _ "account_status" "Active" "evaluating" "active"
     (by decide) (by decide) (by decide)⟩

/-! ## Claim C4 -/

/-- C4: a string S that matches no label exactly, case-insensitively or as a
substring in either direction is returned unchanged (fail-open pass-through);
with no `ValueMapping` for the property the hypotheses hold vacuously, so every
S passes through. -/
theorem claim_C4_pass_through (all_mappings : ValueMappings) (property_name S : String)
    (h1 : ∀ p ∈ get_property_value_mapping all_mappings property_name, p.1 ≠ S)
    (h2 : ∀ p ∈ get_property_value_mapping all_mappings property_name,
        lower p.1 ≠ lower S)
    (h3 : ∀ p ∈ get_property_value_mapping all_mappings property_name,
        pyIn (lower S) (lower p.1) = false ∧ pyIn (lower p.1) (lower S) = false) :
    map_value_to_internal all_mappings property_name S = S := by
  unfold map_value_to_internal
  have hlk : (get_property_value_mapping all_mappings property_name).lookup S = none := by
    cases hlk : (get_property_value_mapping all_mappings property_name).lookup S with
    | none => rfl
    | some v => exact absurd rfl (h1 (S, v) (lookup_mem hlk))
  have hfd1 : (get_property_value_mapping all_mappings property_name).find?
      (fun p => lower p.1 == lower S) = none := by
    rw [List.find?_eq_none]
    intro p hp
    simp only [beq_iff_eq]
    exact h2 p hp
  have hfd2 : (get_property_value_mapping all_mappings property_name).find?
      (fun p => pyIn (lower S) (lower p.1) || pyIn (lower p.1) (lower S)) = none := by
    rw [List.find?_eq_none]
    intro p hp
    simp only [Bool.or_eq_true, not_or]
    exact ⟨by simp [(h3 p hp).1], by simp [(h3 p hp).2]⟩
  simp only [hlk, hfd1, hfd2]

/-- Witness for C4: the unknown string "zzgarbage" passes through both a
populated property and a property with no value mapping at all. -/
theorem claim_C4_pass_through_witness :
    (∀ p ∈ get_property_value_mapping [("account_status", [("Active", "evaluating")])]
        "account_status", p.1 ≠ "zzgarbage")
    ∧ map_value_to_internal [("account_status", [("Active", "evaluating")])]
        "account_status" "zzgarbage" = "zzgarbage"
    ∧ map_value_to_internal [("account_status", [("Active", "evaluating")])]
        "missing_property" "zzgarbage" = "zzgarbage" :=
  ⟨by decide,
   claim_C4_pass_through _ "account_status" "zzgarbage" (by decide) (by decide) (by decide),
   claim_C4_pass_through _ "missing_property" "zzgarbage" (by decide) (by decide) (by decide)⟩

/-! ## Claim C8 -/

/-- C8: when any city-valued entry of the location table matches the query, the
location resolver returns exactly the matching city filters and no state
filter; every emitted filter comes from a table entry, is an equality filter,
and is a state filter exactly when the stored value has 2 characters.  On
"companies in Austin, Texas" the single filter `city EQ "Austin"` is emitted. -/
theorem claim_C8_city_over_state :
    (∀ (query : String) (vm : ValueMappings),
        (∃ p ∈ cities, pyIn p.1 query = true ∧ p.2.length ≠ 2) →
        _resolve_location_queries query vm
          = ((cities.filter fun p => pyIn p.1 query).filter fun p => !(p.2.length == 2)).map
              (fun p => ⟨"city", "EQ", p.2⟩)
        ∧ ∀ f ∈ _resolve_location_queries query vm, f.propertyName = "city")
    ∧ (∀ (query : String) (vm : ValueMappings) (f : Filter),
        f ∈ _resolve_location_queries query vm →
        ∃ p ∈ cities, pyIn p.1 query = true ∧ f.value = p.2 ∧ f.operator = "EQ"
          ∧ ((p.2.length ≠ 2 ∧ f.propertyName = "city")
             ∨ (p.2.length = 2 ∧ f.propertyName = "state")))
    ∧ _resolve_location_queries (lower "companies in Austin, Texas") []
        = [⟨"city", "EQ", "Austin"⟩] := by
  refine ⟨?_, ?_, by decide⟩
  · rintro query vm ⟨p, hp, hin, hlen⟩
    have hmem : p ∈ (cities.filter fun p => pyIn p.1 query).filter
        fun p => !(p.2.length == 2) :=
      List.mem_filter.mpr ⟨List.mem_filter.mpr ⟨hp, hin⟩, by simpa using hlen⟩
    have hne : (((cities.filter fun p => pyIn p.1 query).filter
        fun p => !(p.2.length == 2)).map (fun p => (⟨"city", "EQ", p.2⟩ : Filter))) ≠ [] :=
      List.ne_nil_of_mem (List.mem_map_of_mem _ hmem)
    constructor
    · simp only [_resolve_location_queries, List.isEmpty_eq_false.mpr hne, Bool.not_false,
        if_pos]
    · intro f hf
      simp only [_resolve_location_queries, List.isEmpty_eq_false.mpr hne, Bool.not_false,
        if_pos] at hf
      obtain ⟨q, -, rfl⟩ := List.mem_map.mp hf
      rfl
  · intro query vm f hf
    simp only [_resolve_location_queries] at hf
    split at hf
    · obtain ⟨q, hq, rfl⟩ := List.mem_map.mp hf
      obtain ⟨hq1, hq2⟩ := List.mem_filter.mp hq
      obtain ⟨hq3, hq4⟩ := List.mem_filter.mp hq1
      exact ⟨q, hq3, hq4, rfl, rfl, Or.inl ⟨by simpa using hq2, rfl⟩⟩
    · obtain ⟨q, hq, rfl⟩ := List.mem_map.mp hf
      obtain ⟨hq1, hq2⟩ := List.mem_filter.mp hq
      obtain ⟨hq3, hq4⟩ := List.mem_filter.mp hq1
      exact ⟨q, hq3, hq4, rfl, rfl, Or.inr ⟨by simpa using hq2, rfl⟩⟩

/-- Witness for C8: the general clauses applied to the Austin/Texas query. -/
theorem claim_C8_city_over_state_witness :
    (∃ p ∈ cities, pyIn p.1 (lower "companies in Austin, Texas") = true ∧ p.2.length ≠ 2)
    ∧ (∀ f ∈ _resolve_location_queries (lower "companies in Austin, Texas") [],
        f.propertyName = "city")
    ∧ (∃ p ∈ cities, pyIn p.1 (lower "companies in Austin, Texas") = true
        ∧ Filter.value ⟨"city", "EQ", "Austin"⟩ = p.2
        ∧ Filter.operator ⟨"city", "EQ", "Austin"⟩ = "EQ"
        ∧ ((p.2.length ≠ 2 ∧ Filter.propertyName ⟨"city", "EQ", "Austin"⟩ = "city")
           ∨ (p.2.length = 2 ∧ Filter.propertyName ⟨"city", "EQ", "Austin"⟩ = "state"))) :=
  ⟨by decide,
   (claim_C8_city_over_state.1 (lower "companies in Austin, Texas") [] (by decide)).2,
   claim_C8_city_over_state.2.1 (lower "companies in Austin, Texas") [] _ (by decide)⟩

/-! ## Claim C9 -/

/-- C9: the generic fallback resolver is, extensionally, one pass over the
value mappings that skips the properties claimed by the specific category
resolvers and, per remaining property, turns the first label of length > 2
whose lowercased form occurs in the query into one equality filter; with
distinct property keys it emits at most one filter per property. -/
theorem claim_C9_generic_fallback :
    (∀ (query : String) (vm : ValueMappings),
        _resolve_generic_queries query vm
          = vm.filterMap fun pv =>
              if pv.1 ∈ handled_properties then none
              else (pv.2.find? fun lv => lv.1.length > 2 && pyIn (lower lv.1) query).map
                     fun lv => ⟨pv.1, "EQ", lv.2⟩)
    ∧ (∀ (query : String) (vm : ValueMappings),
        (vm.map Prod.fst).Nodup →
        ((_resolve_generic_queries query vm).map Filter.propertyName).Nodup) := by
  have hchar : ∀ (query : String) (vm : ValueMappings),
      _resolve_generic_queries query vm
        = vm.filterMap fun pv =>
            if pv.1 ∈ handled_properties then none
            else (pv.2.find? fun lv => lv.1.length > 2 && pyIn (lower lv.1) query).map
                   fun lv => ⟨pv.1, "EQ", lv.2⟩ := by
    intro query vm
    induction vm with
    | nil => rfl
    | cons pv rest ih =>
      obtain ⟨property_name, property_values⟩ := pv
      by_cases h : property_name ∈ handled_properties
      · simp only [_resolve_generic_queries, if_pos h, List.filterMap_cons, ih]
      · cases hfd : property_values.find? fun lv => lv.1.length > 2 && pyIn (lower lv.1) query with
        | none => simp only [_resolve_generic_queries, if_neg h, hfd, List.filterMap_cons, ih,
            Option.map_none']
        | some lv => simp only [_resolve_generic_queries, if_neg h, hfd, List.filterMap_cons, ih,
            Option.map_some']
  have hsub : ∀ (query : String) (vm : ValueMappings),
      ((_resolve_generic_queries query vm).map Filter.propertyName).Sublist (vm.map Prod.fst) := by
    intro query vm
    induction vm with
    | nil => exact List.Sublist.refl _
    | cons pv rest ih =>
      obtain ⟨property_name, property_values⟩ := pv
      by_cases h : property_name ∈ handled_properties
      · simp only [_resolve_generic_queries, if_pos h, List.map_cons]
        exact ih.cons _
      · cases hfd : property_values.find? fun lv => lv.1.length > 2 && pyIn (lower lv.1) query with
        | none =>
          simp only [_resolve_generic_queries, if_neg h, hfd, List.map_cons]
          exact ih.cons _
        | some lv =>
          simp only [_resolve_generic_queries, if_neg h, hfd, List.map_cons]
          exact ih.cons₂ _
  exact ⟨hchar, fun query vm h => (hsub query vm).nodup h⟩

/-- Witness for C9: a query matching the long label "Dallas Cowboys" of the
unhandled property `sports_team` yields exactly its equality filter, and the
emitted property names are distinct. -/
theorem claim_C9_generic_fallback_witness :
    _resolve_generic_queries (lower "Dallas Cowboys fans") c9_mappings
      = c9_mappings.filterMap (fun pv =>
          if pv.1 ∈ handled_properties then none
          else (pv.2.find? fun lv =>
                  lv.1.length > 2 && pyIn (lower lv.1) (lower "Dallas Cowboys fans")).map
                 fun lv => ⟨pv.1, "EQ", lv.2⟩)
    ∧ _resolve_generic_queries (lower "Dallas Cowboys fans") c9_mappings
        = [⟨"sports_team", "EQ", "cb1"⟩]
    ∧ ((_resolve_generic_queries (lower "Dallas Cowboys fans") c9_mappings).map
        Filter.propertyName).Nodup :=
  ⟨claim_C9_generic_fallback.1 (lower "Dallas Cowboys fans") c9_mappings,
   by decide,
   claim_C9_generic_fallback.2 (lower "Dallas Cowboys fans") c9_mappings (by decide)⟩

/-! ## Claim C7 -/

/-- C7 counterexample: the query "renewal customers" contains the renewal term
"renewal" and the cached mappings contain the renewal-named property
`next_renewal_date`, yet the flat date resolver emits no filter at all (its
emission is additionally gated on "upcoming"/"next" in the query); and in the
hierarchical resolver the query "upcoming renewal" against a generic renewal
property listed before a "texting" renewal property selects the generic one,
not the texting variant. -/
theorem claim_C7_counterexample :
    renewal_terms_flat.any (fun t => pyIn t (lower "renewal customers")) = true
    ∧ date_property_tokens.any (fun t => pyIn t (lower "next_renewal_date")) = true
    ∧ _resolve_date_queries (lower "renewal customers") [("next_renewal_date", [("a", "b")])]
        = []
    ∧ _resolve_date_in_group (lower "upcoming renewal") renewal_properties
        = [⟨"next_renewal_date", "HAS_PROPERTY", ""⟩] := by
  decide

/-- C7 (amended): every filter either date resolver emits is a `HAS_PROPERTY`
filter (never value-equality) on a renewal/expiry-named (flat) or
renewal-labelled (hierarchical) property, and at most one is emitted; but the
flat resolver emits only when the query also contains "upcoming" or "next",
and the hierarchical resolver takes the first renewal-labelled property in
group order, so a later "texting" variant is not selected ahead of it. -/
theorem claim_C7_renewal_filters :
    (∀ (query : String) (vm : ValueMappings) (f : Filter),
        f ∈ _resolve_date_queries query vm →
        f.operator = "HAS_PROPERTY"
        ∧ date_property_tokens.any (fun t => pyIn t (lower f.propertyName)) = true
        ∧ renewal_terms_flat.any (fun t => pyIn t query) = true
        ∧ (pyIn "upcoming" query = true ∨ pyIn "next" query = true))
    ∧ (∀ (query : String) (vm : ValueMappings),
        pyIn "upcoming" query = false → pyIn "next" query = false →
        _resolve_date_queries query vm = [])
    ∧ (∀ (query : String) (vm : ValueMappings), (_resolve_date_queries query vm).length ≤ 1)
    ∧ (∀ (query : String) (properties : List (String × PropInfo)),
        _resolve_date_in_group query properties
          = if renewal_terms_hier.any (fun t => pyIn t query) then
              match properties.find? (fun p =>
                  pyIn "renewal" (lower p.2.label) || pyIn "renew" (lower p.2.label)) with
              | some p => [⟨p.1, "HAS_PROPERTY", ""⟩]
              | none => []
            else []) := by
  have hloop : ∀ (query : String) (properties : List (String × PropInfo)),
      date_group_loop query properties
        = match properties.find? (fun p =>
              pyIn "renewal" (lower p.2.label) || pyIn "renew" (lower p.2.label)) with
          | some p => [⟨p.1, "HAS_PROPERTY", ""⟩]
          | none => [] := by
    intro query properties
    induction properties with
    | nil => rfl
    | cons pp rest ih =>
      obtain ⟨prop_name, prop_info⟩ := pp
      by_cases h : (pyIn "renewal" (lower prop_info.label)
          || pyIn "renew" (lower prop_info.label)) = true
      · rw [show ((prop_name, prop_info) :: rest).find? (fun p =>
            pyIn "renewal" (lower p.2.label) || pyIn "renew" (lower p.2.label))
            = some (prop_name, prop_info) from List.find?_cons_of_pos _ h]
        simp only [date_group_loop, h, if_true]
        split <;> rfl
      · rw [show ((prop_name, prop_info) :: rest).find? (fun p =>
            pyIn "renewal" (lower p.2.label) || pyIn "renew" (lower p.2.label))
            = rest.find? (fun p =>
                pyIn "renewal" (lower p.2.label) || pyIn "renew" (lower p.2.label))
            from List.find?_cons_of_neg _ h]
        have h' : (pyIn "renewal" (lower prop_info.label)
            || pyIn "renew" (lower prop_info.label)) = false := by
          revert h
          cases pyIn "renewal" (lower prop_info.label) || pyIn "renew" (lower prop_info.label)
          · intro
            rfl
          · intro h
            exact absurd rfl h
        simp only [date_group_loop, h', Bool.false_eq_true, if_false, ih]
  refine ⟨?_, ?_, ?_, ?_⟩
  · intro query vm f hf
    unfold _resolve_date_queries at hf
    split at hf
    case isFalse => simp at hf
    case isTrue hren =>
      cases hm : (vm.map Prod.fst).filter
          (fun pn => date_property_tokens.any fun t => pyIn t (lower pn)) with
      | nil => simp only [hm] at hf; simp at hf
      | cons prop rest =>
        simp only [hm] at hf
        split at hf
        case isFalse => simp at hf
        case isTrue hup =>
          simp only [List.mem_singleton] at hf
          subst hf
          have hprop : prop ∈ (vm.map Prod.fst).filter
              (fun pn => date_property_tokens.any fun t => pyIn t (lower pn)) := by
            rw [hm]
            exact List.mem_cons_self _ _
          exact ⟨rfl, (List.mem_filter.mp hprop).2, hren, by simpa using hup⟩
  · intro query vm h1 h2
    unfold _resolve_date_queries
    split
    case isFalse => rfl
    case isTrue =>
      cases hm : (vm.map Prod.fst).filter
          (fun pn => date_property_tokens.any fun t => pyIn t (lower pn)) with
      | nil => simp only [hm]
      | cons prop rest =>
        have hb : (pyIn "upcoming" query || pyIn "next" query) = false := by
          rw [h1, h2]
          rfl
        simp only [hm, hb, Bool.false_eq_true, if_false]
  · intro query vm
    unfold _resolve_date_queries
    split
    case isFalse => simp
    case isTrue =>
      cases hm : (vm.map Prod.fst).filter
          (fun pn => date_property_tokens.any fun t => pyIn t (lower pn)) with
      | nil => simp [hm]
      | cons prop rest =>
        simp only [hm]
        split <;> simp
  · intro query properties
    unfold _resolve_date_in_group
    split
    case isTrue => exact hloop query properties
    case isFalse => rfl

/-- Witness for C7's amended theorem: the emitted-filter clause at the query
"upcoming renewal", the no-emission clause at "renewal customers", and the
first-renewal-property characterization at `renewal_properties`. -/
theorem claim_C7_renewal_filters_witness :
    ((⟨"next_renewal_date", "HAS_PROPERTY", ""⟩ : Filter)
        ∈ _resolve_date_queries (lower "upcoming renewal") [("next_renewal_date", [("a", "b")])])
    ∧ Filter.operator ⟨"next_renewal_date", "HAS_PROPERTY", ""⟩ = "HAS_PROPERTY"
    ∧ pyIn "upcoming" (lower "renewal customers") = false
    ∧ _resolve_date_queries (lower "renewal customers") [("next_renewal_date", [("a", "b")])]
        = []
    ∧ _resolve_date_in_group (lower "upcoming renewal") renewal_properties
        = (if renewal_terms_hier.any (fun t => pyIn t (lower "upcoming renewal")) then
            match renewal_properties.find? (fun p =>
                pyIn "renewal" (lower p.2.label) || pyIn "renew" (lower p.2.label)) with
            | some p => [⟨p.1, "HAS_PROPERTY", ""⟩]
            | none => []
          else []) :=
  ⟨by decide,
   (claim_C7_renewal_filters.1 (lower "upcoming renewal") [("next_renewal_date", [("a", "b")])]
     _ (by decide)).1,
   by decide,
   claim_C7_renewal_filters.2.1 (lower "renewal customers")
     [("next_renewal_date", [("a", "b")])] (by decide) (by decide),
   claim_C7_renewal_filters.2.2.2 (lower "upcoming renewal") renewal_properties⟩

/-! ## Operator lemmas for the individual resolvers -/

theorem owner_filters_for_prop_op {query owner_prop : String} {m : ValueMapping} {f : Filter}
    (hf : f ∈ owner_filters_for_prop query owner_prop m) : f.operator = "EQ" := by
  unfold owner_filters_for_prop at hf
  rcases hscan : owner_scan query m with ⟨e, partials⟩
  simp only [hscan] at hf
  cases e with
  | cons oid rest =>
    simp only [List.mem_singleton] at hf
    subst hf
    rfl
  | nil =>
    cases hmax : max_by_label_len partials with
    | some pr =>
      obtain ⟨oid, ll⟩ := pr
      simp only [hmax, List.mem_singleton] at hf
      subst hf
      rfl
    | none => simp [hmax] at hf

theorem owner_props_loop_op {query : String} {vm : ValueMappings} {f : Filter} :
    ∀ {props : List String}, f ∈ owner_props_loop query vm props → f.operator = "EQ" := by
  intro props
  induction props with
  | nil => intro hf; simp [owner_props_loop] at hf
  | cons owner_prop rest ih =>
    intro hf
    unfold owner_props_loop at hf
    cases hlk : vm.lookup owner_prop with
    | none =>
      simp only [hlk] at hf
      exact ih hf
    | some m =>
      simp only [hlk] at hf
      split at hf
      case isFalse => exact ih hf
      case isTrue =>
        cases hff : owner_filters_for_prop query owner_prop m with
        | nil =>
          simp only [hff] at hf
          exact ih hf
        | cons g gs =>
          simp only [hff] at hf
          exact owner_filters_for_prop_op (hff ▸ hf)

theorem resolve_owner_queries_op {query : String} {vm : ValueMappings} {f : Filter}
    (hf : f ∈ _resolve_owner_queries query vm) : f.operator = "EQ" :=
  owner_props_loop_op hf

theorem resolve_status_queries_op {query : String} {vm : ValueMappings} {f : Filter}
    (hf : f ∈ _resolve_status_queries query vm) : f.operator = "EQ" := by
  unfold _resolve_status_queries at hf
  cases hlk : vm.lookup "account_status" with
  | none => simp [hlk] at hf
  | some m =>
    simp only [hlk] at hf
    cases hfd : m.find? (fun p => pyIn (lower p.1) query) with
    | none => simp [hfd] at hf
    | some p =>
      simp only [hfd, List.mem_singleton] at hf
      subst hf
      rfl

theorem industry_loop_op {query : String} {f : Filter} :
    ∀ {m : ValueMapping}, f ∈ industry_loop query m → f.operator = "EQ" := by
  intro m
  induction m with
  | nil => intro hf; simp [industry_loop] at hf
  | cons lv rest ih =>
    intro hf
    obtain ⟨label, internal_value⟩ := lv
    unfold industry_loop at hf
    split at hf
    · simp only [List.mem_singleton] at hf
      subst hf
      rfl
    · exact ih hf

theorem resolve_industry_queries_op {query : String} {vm : ValueMappings} {f : Filter}
    (hf : f ∈ _resolve_industry_queries query vm) : f.operator = "EQ" := by
  unfold _resolve_industry_queries at hf
  cases hlk : vm.lookup "industry" with
  | none => simp [hlk] at hf
  | some m =>
    simp only [hlk] at hf
    exact industry_loop_op hf

theorem tier_loop_op {query : String} {f : Filter} :
    ∀ {m : ValueMapping}, f ∈ tier_loop query m → f.operator = "EQ" := by
  intro m
  induction m with
  | nil => intro hf; simp [tier_loop] at hf
  | cons lv rest ih =>
    intro hf
    obtain ⟨label, internal_value⟩ := lv
    unfold tier_loop at hf
    split at hf
    · simp only [List.mem_singleton] at hf
      subst hf
      rfl
    · exact ih hf

theorem resolve_tier_queries_op {query : String} {vm : ValueMappings} {f : Filter}
    (hf : f ∈ _resolve_tier_queries query vm) : f.operator = "EQ" := by
  unfold _resolve_tier_queries at hf
  cases hlk : vm.lookup "customer_tier" with
  | none => simp [hlk] at hf
  | some m =>
    simp only [hlk] at hf
    exact tier_loop_op hf

theorem resolve_location_queries_op {query : String} {vm : ValueMappings} {f : Filter}
    (hf : f ∈ _resolve_location_queries query vm) : f.operator = "EQ" := by
  simp only [_resolve_location_queries] at hf
  split at hf
  · obtain ⟨p, -, rfl⟩ := List.mem_map.mp hf
    rfl
  · obtain ⟨p, -, rfl⟩ := List.mem_map.mp hf
    rfl

theorem resolve_date_queries_op {query : String} {vm : ValueMappings} {f : Filter}
    (hf : f ∈ _resolve_date_queries query vm) : f.operator = "HAS_PROPERTY" := by
  unfold _resolve_date_queries at hf
  split at hf
  case isFalse => simp at hf
  case isTrue =>
    cases hm : (vm.map Prod.fst).filter
        (fun pn => date_property_tokens.any fun t => pyIn t (lower pn)) with
    | nil => simp only [hm] at hf; simp at hf
    | cons prop rest =>
      simp only [hm] at hf
      split at hf
      case isFalse => simp at hf
      case isTrue =>
        simp only [List.mem_singleton] at hf
        subst hf
        rfl

theorem resolve_generic_queries_op {query : String} {f : Filter} :
    ∀ {vm : ValueMappings}, f ∈ _resolve_generic_queries query vm → f.operator = "EQ" := by
  intro vm
  induction vm with
  | nil => intro hf; simp [_resolve_generic_queries] at hf
  | cons pv rest ih =>
    intro hf
    obtain ⟨property_name, property_values⟩ := pv
    unfold _resolve_generic_queries at hf
    split at hf
    · exact ih hf
    · cases hfd : property_values.find? (fun lv => lv.1.length > 2 && pyIn (lower lv.1) query) with
      | none =>
        simp only [hfd] at hf
        exact ih hf
      | some lv =>
        simp only [hfd, List.mem_cons] at hf
        cases hf with
        | inl h => subst h; rfl
        | inr h => exact ih h

theorem resolve_owner_in_group_op {query : String} {user_email : Option String} {f : Filter} :
    ∀ {props : List (String × PropInfo)},
      f ∈ _resolve_owner_in_group query user_email props → f.operator = "EQ" := by
  intro props
  induction props with
  | nil => intro hf; simp [_resolve_owner_in_group] at hf
  | cons pp rest ih =>
    intro hf
    obtain ⟨prop_name, prop_info⟩ := pp
    unfold _resolve_owner_in_group at hf
    split at hf
    case isFalse => exact ih hf
    case isTrue =>
      cases hemail : owner_email_hit query user_email prop_info.value_mappings with
      | some p =>
        simp only [hemail, List.mem_singleton] at hf
        subst hf
        rfl
      | none =>
        simp only [hemail] at hf
        cases hfd : prop_info.value_mappings.find? (fun p =>
            pyIn (lower p.1) query || pyIn (lower p.1 ++ "'s") query) with
        | some p =>
          simp only [hfd, List.mem_singleton] at hf
          subst hf
          rfl
        | none =>
          simp only [hfd] at hf
          exact ih hf

theorem resolve_status_in_group_op {query : String} {f : Filter} :
    ∀ {props : List (String × PropInfo)},
      f ∈ _resolve_status_in_group query props → f.operator = "EQ" := by
  intro props
  induction props with
  | nil => intro hf; simp [_resolve_status_in_group] at hf
  | cons pp rest ih =>
    intro hf
    obtain ⟨prop_name, prop_info⟩ := pp
    unfold _resolve_status_in_group at hf
    split at hf
    case isFalse => exact ih hf
    case isTrue =>
      split at hf
      · simp only [List.mem_singleton] at hf
        subst hf
        rfl
      · exact ih hf

theorem date_group_loop_op {query : String} {f : Filter} :
    ∀ {props : List (String × PropInfo)},
      f ∈ date_group_loop query props → f.operator = "HAS_PROPERTY" := by
  intro props
  induction props with
  | nil => intro hf; simp [date_group_loop] at hf
  | cons pp rest ih =>
    intro hf
    obtain ⟨prop_name, prop_info⟩ := pp
    unfold date_group_loop at hf
    split at hf
    · split at hf <;>
        · simp only [List.take, List.mem_singleton] at hf
          subst hf
          rfl
    · exact ih hf

theorem resolve_date_in_group_op {query : String} {props : List (String × PropInfo)}
    {f : Filter} (hf : f ∈ _resolve_date_in_group query props) :
    f.operator = "HAS_PROPERTY" := by
  unfold _resolve_date_in_group at hf
  split at hf
  · exact date_group_loop_op hf
  · simp at hf

theorem group_filters_op {query : String} {user_email : Option String} {g : GroupInfo}
    {f : Filter} (hf : f ∈ group_filters query user_email g) :
    f.operator = "EQ" ∨ f.operator = "HAS_PROPERTY" := by
  unfold group_filters at hf
  rcases List.mem_append.mp hf with h | h
  · rcases List.mem_append.mp h with h' | h'
    · exact Or.inl (resolve_owner_in_group_op h')
    · exact Or.inl (resolve_status_in_group_op h')
  · exact Or.inr (resolve_date_in_group_op h)

theorem hier_group_loop_op {query : String} {user_email : Option String} {f : Filter} :
    ∀ {groups : List GroupInfo},
      f ∈ hier_group_loop query user_email groups →
      f.operator = "EQ" ∨ f.operator = "HAS_PROPERTY" := by
  intro groups
  induction groups with
  | nil => intro hf; simp [hier_group_loop] at hf
  | cons g rest ih =>
    intro hf
    unfold hier_group_loop at hf
    cases hg : group_filters query user_email g with
    | nil =>
      simp only [hg] at hf
      exact ih hf
    | cons a l =>
      simp only [hg] at hf
      exact group_filters_op (hg ▸ hf)

/-! ## Claim C10 -/

/-- C10: every filter either resolver emits — the flat
`resolve_query_to_filters` over any cache, object type and query, and the
hierarchical `_resolve_query_to_filters_hierarchical` over any query, group
list and optional user email — carries operator "EQ" or "HAS_PROPERTY".
(`Filter` itself fixes the other half of the claim: each constructed filter
has exactly the fields `propertyName`, `operator`, `value` and no plural
`values`.) -/
theorem claim_C10_operator_invariant :
    (∀ (cache : List (String × Encyclopedia)) (object_type user_query : String) (f : Filter),
        f ∈ resolve_query_to_filters cache object_type user_query →
        f.operator = "EQ" ∨ f.operator = "HAS_PROPERTY")
    ∧ (∀ (user_query : String) (relevant_groups : List GroupInfo)
        (user_email : Option String) (f : Filter),
        f ∈ _resolve_query_to_filters_hierarchical user_query relevant_groups user_email →
        f.operator = "EQ" ∨ f.operator = "HAS_PROPERTY") := by
  constructor
  · intro cache object_type user_query f hf
    unfold resolve_query_to_filters at hf
    cases hlk : cache.lookup object_type with
    | none => simp [hlk] at hf
    | some d =>
      simp only [hlk] at hf
      rcases List.mem_append.mp hf with h | h
      · rcases List.mem_append.mp h with h | h
        · rcases List.mem_append.mp h with h | h
          · rcases List.mem_append.mp h with h | h
            · rcases List.mem_append.mp h with h | h
              · rcases List.mem_append.mp h with h | h
                · exact Or.inl (resolve_owner_queries_op h)
                · exact Or.inl (resolve_status_queries_op h)
              · exact Or.inl (resolve_industry_queries_op h)
            · exact Or.inl (resolve_tier_queries_op h)
          · exact Or.inl (resolve_location_queries_op h)
        · exact Or.inr (resolve_date_queries_op h)
      · exact Or.inl (resolve_generic_queries_op h)
  · intro user_query relevant_groups user_email f hf
    exact hier_group_loop_op hf

/-- Witness for C10: concrete memberships in both resolvers' outputs. -/
theorem claim_C10_operator_invariant_witness :
    ((⟨"city", "EQ", "Dallas"⟩ : Filter)
        ∈ resolve_query_to_filters scenario_cache "companies" "companies in Dallas")
    ∧ (Filter.operator ⟨"city", "EQ", "Dallas"⟩ = "EQ"
       ∨ Filter.operator ⟨"city", "EQ", "Dallas"⟩ = "HAS_PROPERTY")
    ∧ ((⟨"account_status", "EQ", "evaluating"⟩ : Filter)
        ∈ _resolve_query_to_filters_hierarchical "active customers" [status_group] none)
    ∧ (Filter.operator ⟨"account_status", "EQ", "evaluating"⟩ = "EQ"
       ∨ Filter.operator ⟨"account_status", "EQ", "evaluating"⟩ = "HAS_PROPERTY") :=
  ⟨by decide,
   claim_C10_operator_invariant.1 scenario_cache "companies" "companies in Dallas" _ (by decide),
   by decide,
   claim_C10_operator_invariant.2 "active customers" [status_group] none _ (by decide)⟩

/-! ## Owner-resolution lemmas -/

theorem owner_scan_exact_sound {query : String} :
    ∀ {m : ValueMapping} {oid : String}, oid ∈ (owner_scan query m).1 →
      ∃ l, (l, oid) ∈ m ∧ owner_exact_match query l = true := by
  intro m
  induction m with
  | nil => intro oid h; simp [owner_scan] at h
  | cons lv rest ih =>
    intro oid h
    obtain ⟨label, owner_id⟩ := lv
    unfold owner_scan at h
    split at h
    case isTrue hex =>
      simp only [List.mem_cons] at h
      cases h with
      | inl h =>
        subst h
        exact ⟨label, List.mem_cons_self _ _, hex⟩
      | inr h =>
        obtain ⟨l, hl, hx⟩ := ih h
        exact ⟨l, List.mem_cons_of_mem _ hl, hx⟩
    case isFalse =>
      split at h
      · obtain ⟨l, hl, hx⟩ := ih h
        exact ⟨l, List.mem_cons_of_mem _ hl, hx⟩
      · obtain ⟨l, hl, hx⟩ := ih h
        exact ⟨l, List.mem_cons_of_mem _ hl, hx⟩

theorem owner_scan_exact_nonempty {query l v : String} :
    ∀ {m : ValueMapping}, (l, v) ∈ m → owner_exact_match query l = true →
      (owner_scan query m).1 ≠ [] := by
  intro m
  induction m with
  | nil => intro h; simp at h
  | cons lv rest ih =>
    intro hmem hex
    obtain ⟨label, owner_id⟩ := lv
    unfold owner_scan
    split
    case isTrue => simp
    case isFalse hnex =>
      have hrest : (l, v) ∈ rest := by
        rcases List.mem_cons.mp hmem with h | h
        · rw [Prod.mk.injEq] at h
          obtain ⟨rfl, rfl⟩ := h
          exact absurd hex hnex
        · exact h
      split
      · exact ih hrest hex
      · exact ih hrest hex

theorem owner_scan_exact_nil {query : String} :
    ∀ {m : ValueMapping}, (∀ p ∈ m, owner_exact_match query p.1 = false) →
      (owner_scan query m).1 = [] := by
  intro m
  induction m with
  | nil => intro; rfl
  | cons lv rest ih =>
    intro h
    obtain ⟨label, owner_id⟩ := lv
    unfold owner_scan
    split
    case isTrue hex =>
      exact absurd hex (by simp [h (label, owner_id) (List.mem_cons_self _ _)])
    case isFalse =>
      have hrest := fun p hp => h p (List.mem_cons_of_mem _ hp)
      split
      · exact ih hrest
      · exact ih hrest

theorem owner_scan_partial_sound {query : String} :
    ∀ {m : ValueMapping} {oid ll : String}, (oid, ll) ∈ (owner_scan query m).2 →
      ∃ l, (l, oid) ∈ m ∧ ll = lower l ∧ owner_partial_match query l = true := by
  intro m
  induction m with
  | nil => intro oid ll h; simp [owner_scan] at h
  | cons lv rest ih =>
    intro oid ll h
    obtain ⟨label, owner_id⟩ := lv
    unfold owner_scan at h
    split at h
    case isTrue =>
      obtain ⟨l, hl, he, hx⟩ := ih h
      exact ⟨l, List.mem_cons_of_mem _ hl, he, hx⟩
    case isFalse =>
      split at h
      case isTrue hpar =>
        simp only [List.mem_cons, Prod.mk.injEq] at h
        rcases h with ⟨rfl, rfl⟩ | h
        · exact ⟨label, List.mem_cons_self _ _, rfl, hpar⟩
        · obtain ⟨l, hl, he, hx⟩ := ih h
          exact ⟨l, List.mem_cons_of_mem _ hl, he, hx⟩
      case isFalse =>
        obtain ⟨l, hl, he, hx⟩ := ih h
        exact ⟨l, List.mem_cons_of_mem _ hl, he, hx⟩

theorem owner_scan_partial_complete {query l v : String} :
    ∀ {m : ValueMapping}, (l, v) ∈ m → owner_exact_match query l = false →
      owner_partial_match query l = true → (v, lower l) ∈ (owner_scan query m).2 := by
  intro m
  induction m with
  | nil => intro h; simp at h
  | cons lv rest ih =>
    intro hmem hnex hpar
    obtain ⟨label, owner_id⟩ := lv
    rcases List.mem_cons.mp hmem with h | h
    · rw [Prod.mk.injEq] at h
      obtain ⟨rfl, rfl⟩ := h
      unfold owner_scan
      rw [if_neg (by simp [hnex]), if_pos hpar]
      exact List.mem_cons_self _ _
    · unfold owner_scan
      split
      case isTrue => exact ih h hnex hpar
      case isFalse =>
        split
        case isTrue => exact List.mem_cons_of_mem _ (ih h hnex hpar)
        case isFalse => exact ih h hnex hpar

theorem foldl_max_spec :
    ∀ (xs : List (String × String)) (acc : String × String),
      (xs.foldl max_step acc = acc ∨ xs.foldl max_step acc ∈ xs)
      ∧ acc.2.length ≤ (xs.foldl max_step acc).2.length
      ∧ ∀ y ∈ xs, y.2.length ≤ (xs.foldl max_step acc).2.length := by
  intro xs
  induction xs with
  | nil => intro acc; exact ⟨Or.inl rfl, Nat.le_refl _, by simp⟩
  | cons x rest ih =>
    intro acc
    have hfold : (x :: rest).foldl max_step acc = rest.foldl max_step (max_step acc x) := rfl
    obtain ⟨hmem, hacc, hall⟩ := ih (max_step acc x)
    have hsx : max_step acc x = x ∨ max_step acc x = acc := by
      unfold max_step
      split
      · exact Or.inl rfl
      · exact Or.inr rfl
    have hax : acc.2.length ≤ (max_step acc x).2.length
        ∧ x.2.length ≤ (max_step acc x).2.length := by
      unfold max_step
      split
      case isTrue h => exact ⟨Nat.le_of_lt h, Nat.le_refl _⟩
      case isFalse h => exact ⟨Nat.le_refl _, Nat.le_of_not_lt h⟩
    refine ⟨?_, ?_, ?_⟩
    · rw [hfold]
      rcases hmem with h | h
      · rcases hsx with h' | h'
        · exact Or.inr (by rw [h, h']; exact List.mem_cons_self _ _)
        · exact Or.inl (by rw [h, h'])
      · exact Or.inr (List.mem_cons_of_mem _ h)
    · rw [hfold]
      exact Nat.le_trans hax.1 hacc
    · intro y hy
      rw [hfold]
      rcases List.mem_cons.mp hy with h | h
      · exact Nat.le_trans (h ▸ hax.2) hacc
      · exact hall y h

theorem max_by_label_len_spec {l : List (String × String)} {x : String × String}
    (h : max_by_label_len l = some x) :
    x ∈ l ∧ ∀ y ∈ l, y.2.length ≤ x.2.length := by
  cases l with
  | nil => simp [max_by_label_len] at h
  | cons a rest =>
    have hx : x = rest.foldl max_step a := by
      simpa [max_by_label_len] using h.symm
    obtain ⟨hmem, hacc, hall⟩ := foldl_max_spec rest a
    constructor
    · rcases hmem with h' | h'
      · rw [hx, h']
        exact List.mem_cons_self _ _
      · exact hx ▸ List.mem_cons_of_mem _ h'
    · intro y hy
      rcases List.mem_cons.mp hy with h' | h'
      · subst h'
        exact hx ▸ hacc
      · exact hx ▸ hall y h'

theorem owner_filters_for_prop_len {query owner_prop : String} {m : ValueMapping} :
    (owner_filters_for_prop query owner_prop m).length ≤ 1 := by
  unfold owner_filters_for_prop
  rcases owner_scan query m with ⟨e, partials⟩
  cases e with
  | cons oid rest => simp
  | nil =>
    cases hmax : max_by_label_len partials with
    | some pr =>
      obtain ⟨oid, ll⟩ := pr
      simp [hmax]
    | none => simp [hmax]

theorem owner_props_loop_len {query : String} {vm : ValueMappings} :
    ∀ {props : List String}, (owner_props_loop query vm props).length ≤ 1 := by
  intro props
  induction props with
  | nil => simp [owner_props_loop]
  | cons owner_prop rest ih =>
    unfold owner_props_loop
    cases hlk : vm.lookup owner_prop with
    | none => simp only [hlk]; exact ih
    | some m =>
      simp only [hlk]
      split
      case isFalse => exact ih
      case isTrue =>
        cases hff : owner_filters_for_prop query owner_prop m with
        | nil => simp only [hff]; exact ih
        | cons g gs =>
          simp only [hff]
          exact hff ▸ owner_filters_for_prop_len

theorem owner_props_loop_no_cue {query : String} {vm : ValueMappings}
    (hcue : has_owner_context query = false) :
    ∀ {props : List String}, owner_props_loop query vm props = [] := by
  intro props
  induction props with
  | nil => rfl
  | cons owner_prop rest ih =>
    unfold owner_props_loop
    cases hlk : vm.lookup owner_prop with
    | none => simp only [hlk]; exact ih
    | some m =>
      simp only [hlk]
      rw [if_neg (by simp [hcue])]
      exact ih

theorem owner_loop_first_hit {query owner_prop : String} {vm : ValueMappings}
    {m : ValueMapping} {fs : List Filter} {rest : List String}
    (hlk : vm.lookup owner_prop = some m) (hcue : has_owner_context query = true)
    (hfs : owner_filters_for_prop query owner_prop m = fs) (hne : fs ≠ []) :
    owner_props_loop query vm (owner_prop :: rest) = fs := by
  unfold owner_props_loop
  simp only [hlk, hcue, if_true]
  cases hval : fs with
  | nil => exact absurd hval hne
  | cons g gs =>
    rw [hfs, hval]

/-! ## Claim C2 -/

/-- C2: the owner resolver emits nothing without an ownership cue; it emits at
most one filter per resolution call; with a cue, an exact full-name match on
the primary owner property beats any partial match; with no exact match, the
partial match with the longest owner label wins; and "Tyler's companies"
against {"Tyler Beagley": "123", "Tyler Price": "456"} selects "123". -/
theorem claim_C2_owner_resolution :
    (∀ (query : String) (vm : ValueMappings),
        has_owner_context query = false → _resolve_owner_queries query vm = [])
    ∧ (∀ (query : String) (vm : ValueMappings),
        (_resolve_owner_queries query vm).length ≤ 1)
    ∧ (∀ (query : String) (vm : ValueMappings) (m : ValueMapping),
        vm.lookup "hubspot_owner_id" = some m →
        has_owner_context query = true →
        ∀ p₀ ∈ m, owner_exact_match query p₀.1 = true →
        ∃ l oid, (l, oid) ∈ m ∧ owner_exact_match query l = true
          ∧ _resolve_owner_queries query vm = [⟨"hubspot_owner_id", "EQ", oid⟩])
    ∧ (∀ (query : String) (vm : ValueMappings) (m : ValueMapping),
        vm.lookup "hubspot_owner_id" = some m →
        (∀ p ∈ m, owner_exact_match query p.1 = false) →
        ∀ p₀ ∈ m, owner_partial_match query p₀.1 = true →
        ∃ l oid, (l, oid) ∈ m ∧ owner_partial_match query l = true
          ∧ _resolve_owner_queries query vm = [⟨"hubspot_owner_id", "EQ", oid⟩]
          ∧ ∀ p ∈ m, owner_partial_match query p.1 = true →
              (lower p.1).length ≤ (lower l).length)
    ∧ _resolve_owner_queries (lower "Tyler's companies")
        [("hubspot_owner_id", tyler_owner_directory)]
      = [⟨"hubspot_owner_id", "EQ", "123"⟩] := by
  refine ⟨?_, ?_, ?_, ?_, by decide⟩
  · intro query vm hcue
    exact owner_props_loop_no_cue hcue
  · intro query vm
    exact owner_props_loop_len
  · intro query vm m hlk hcue p₀ hp₀ hex₀
    obtain ⟨l₀, v₀⟩ := p₀
    have hne : (owner_scan query m).1 ≠ [] := owner_scan_exact_nonempty hp₀ hex₀
    rcases hscan : owner_scan query m with ⟨e, partials⟩
    rw [hscan] at hne
    cases e with
    | nil => exact absurd rfl hne
    | cons oid e' =>
      have hoid : oid ∈ (owner_scan query m).1 := by
        rw [hscan]
        exact List.mem_cons_self _ _
      obtain ⟨l, hl, hx⟩ := owner_scan_exact_sound hoid
      have hff : owner_filters_for_prop query "hubspot_owner_id" m
          = [⟨"hubspot_owner_id", "EQ", oid⟩] := by
        unfold owner_filters_for_prop
        rw [hscan]
      exact ⟨l, oid, hl, hx,
        owner_loop_first_hit hlk hcue hff (by simp)⟩
  · intro query vm m hlk hnoex p₀ hp₀ hpar₀
    obtain ⟨l₀, v₀⟩ := p₀
    have hs : pyIn "'s" query = true :=
      (Bool.and_eq_true_iff.mp ((Bool.and_eq_true_iff.mp hpar₀).1)).2
    have hcue : has_owner_context query = true := by
      simp [has_owner_context, owner_indicators, hs]
    have hnil : (owner_scan query m).1 = [] := owner_scan_exact_nil hnoex
    have hin : (v₀, lower l₀) ∈ (owner_scan query m).2 :=
      owner_scan_partial_complete hp₀ (hnoex (l₀, v₀) hp₀) hpar₀
    rcases hscan : owner_scan query m with ⟨e, partials⟩
    rw [hscan] at hnil hin
    simp only at hnil hin
    subst hnil
    cases hmax : max_by_label_len partials with
    | none =>
      rcases partials with - | ⟨x, xs⟩
      · simp at hin
      · simp [max_by_label_len] at hmax
    | some pr =>
      obtain ⟨oid, ll⟩ := pr
      obtain ⟨hprmem, hprmax⟩ := max_by_label_len_spec hmax
      have hpr2 : (oid, ll) ∈ (owner_scan query m).2 := by
        rw [hscan]
        exact hprmem
      obtain ⟨l, hl, hll, hx⟩ := owner_scan_partial_sound hpr2
      have hff : owner_filters_for_prop query "hubspot_owner_id" m
          = [⟨"hubspot_owner_id", "EQ", oid⟩] := by
        unfold owner_filters_for_prop
        simp only [hscan, hmax]
      refine ⟨l, oid, hl, hx, owner_loop_first_hit hlk hcue hff (by simp), ?_⟩
      intro p hp hparp
      have hinp : (p.2, lower p.1) ∈ (owner_scan query m).2 :=
        owner_scan_partial_complete (by simpa using hp) (hnoex p hp) hparp
      rw [hscan] at hinp
      have := hprmax (p.2, lower p.1) hinp
      simpa [hll] using this

/-- Witness for C2: no owner filter on the cue-less "companies in Dallas", the
at-most-one bound, and the longest-partial disambiguation on
"Tyler's companies". -/
theorem claim_C2_owner_resolution_witness :
    has_owner_context (lower "companies in Dallas") = false
    ∧ _resolve_owner_queries (lower "companies in Dallas")
        [("hubspot_owner_id", tyler_owner_directory)] = []
    ∧ (_resolve_owner_queries (lower "Tyler's companies")
        [("hubspot_owner_id", tyler_owner_directory)]).length ≤ 1
    ∧ _resolve_owner_queries (lower "Tyler's companies")
        [("hubspot_owner_id", tyler_owner_directory)]
      = [⟨"hubspot_owner_id", "EQ", "123"⟩] :=
  ⟨by decide,
   claim_C2_owner_resolution.1 (lower "companies in Dallas")
     [("hubspot_owner_id", tyler_owner_directory)] (by decide),
   claim_C2_owner_resolution.2.1 (lower "Tyler's companies")
     [("hubspot_owner_id", tyler_owner_directory)],
   claim_C2_owner_resolution.2.2.2.2⟩

/-! ## Sorting lemmas for the group-relevance ranking -/

theorem mem_insert_by_score {x a : GroupInfo} :
    ∀ {l : List GroupInfo}, a ∈ insert_by_score_desc x l ↔ a = x ∨ a ∈ l := by
  intro l
  induction l with
  | nil => simp [insert_by_score_desc]
  | cons y ys ih =>
    unfold insert_by_score_desc
    split
    · simp [List.mem_cons]
    · simp only [List.mem_cons, ih]
      tauto

theorem insert_by_score_length {x : GroupInfo} :
    ∀ {l : List GroupInfo}, (insert_by_score_desc x l).length = l.length + 1 := by
  intro l
  induction l with
  | nil => rfl
  | cons y ys ih =>
    unfold insert_by_score_desc
    split
    · rfl
    · simp [ih]

theorem sort_by_score_length :
    ∀ {l : List GroupInfo}, (sort_by_score_desc l).length = l.length := by
  intro l
  induction l with
  | nil => rfl
  | cons x xs ih =>
    unfold sort_by_score_desc
    rw [insert_by_score_length, ih, List.length_cons]

theorem mem_sort_by_score {a : GroupInfo} :
    ∀ {l : List GroupInfo}, a ∈ sort_by_score_desc l ↔ a ∈ l := by
  intro l
  induction l with
  | nil => simp [sort_by_score_desc]
  | cons x xs ih =>
    unfold sort_by_score_desc
    rw [mem_insert_by_score, ih, List.mem_cons]

theorem pairwise_insert_by_score {x : GroupInfo} :
    ∀ {l : List GroupInfo},
      l.Pairwise (fun a b => b.relevance_score ≤ a.relevance_score) →
      (insert_by_score_desc x l).Pairwise (fun a b => b.relevance_score ≤ a.relevance_score) := by
  intro l
  induction l with
  | nil => intro; simp [insert_by_score_desc]
  | cons y ys ih =>
    intro h
    obtain ⟨hy, hys⟩ := List.pairwise_cons.mp h
    unfold insert_by_score_desc
    split
    case isTrue hxy =>
      refine List.pairwise_cons.mpr ⟨?_, h⟩
      intro b hb
      rcases List.mem_cons.mp hb with rfl | hb
      · exact hxy
      · exact Nat.le_trans (hy b hb) hxy
    case isFalse hxy =>
      refine List.pairwise_cons.mpr ⟨?_, ih hys⟩
      intro b hb
      rcases mem_insert_by_score.mp hb with rfl | hb
      · exact Nat.le_of_not_le hxy
      · exact hy b hb

theorem pairwise_sort_by_score :
    ∀ {l : List GroupInfo},
      (sort_by_score_desc l).Pairwise (fun a b => b.relevance_score ≤ a.relevance_score) := by
  intro l
  induction l with
  | nil => simp [sort_by_score_desc]
  | cons x xs ih =>
    unfold sort_by_score_desc
    exact pairwise_insert_by_score ih

theorem filter_insert_by_score_eq {x : GroupInfo} {s : Nat} (hx : x.relevance_score = s) :
    ∀ {l : List GroupInfo},
      (insert_by_score_desc x l).filter (fun g => g.relevance_score == s)
        = x :: l.filter (fun g => g.relevance_score == s) := by
  intro l
  induction l with
  | nil => simp [insert_by_score_desc, List.filter_cons, hx]
  | cons y ys ih =>
    unfold insert_by_score_desc
    split
    case isTrue => simp [List.filter_cons, hx]
    case isFalse hxy =>
      have hy : (y.relevance_score == s) = false := by
        simp only [beq_eq_false_iff_ne, ne_eq]
        omega
      simp only [List.filter_cons, hy, Bool.false_eq_true, if_false, ih]

theorem filter_insert_by_score_ne {x : GroupInfo} {s : Nat} (hx : ¬ x.relevance_score = s) :
    ∀ {l : List GroupInfo},
      (insert_by_score_desc x l).filter (fun g => g.relevance_score == s)
        = l.filter (fun g => g.relevance_score == s) := by
  intro l
  induction l with
  | nil => simp [insert_by_score_desc, List.filter_cons, hx]
  | cons y ys ih =>
    unfold insert_by_score_desc
    split
    case isTrue => simp [List.filter_cons, hx]
    case isFalse =>
      simp only [List.filter_cons, ih]

theorem filter_sort_by_score {s : Nat} :
    ∀ {l : List GroupInfo},
      (sort_by_score_desc l).filter (fun g => g.relevance_score == s)
        = l.filter (fun g => g.relevance_score == s) := by
  intro l
  induction l with
  | nil => rfl
  | cons x xs ih =>
    unfold sort_by_score_desc
    by_cases hx : x.relevance_score = s
    · rw [filter_insert_by_score_eq hx, ih, List.filter_cons, if_pos (by simp [hx])]
    · rw [filter_insert_by_score_ne hx, ih, List.filter_cons, if_neg (by simp [hx])]

theorem scored_candidates_mem {qw : List String} {groups : List (String × GroupData)}
    {g : GroupInfo} (h : g ∈ scored_candidates qw groups) :
    ∃ p ∈ groups, g.name = p.1 ∧ g.relevance_score = relevance_score qw p.2
      ∧ relevance_score qw p.2 > 0 := by
  obtain ⟨p, hp, hsome⟩ := List.mem_filterMap.mp h
  by_cases hpos : relevance_score qw p.2 > 0
  · rw [if_pos hpos] at hsome
    obtain rfl := Option.some.injEq .. |>.mp hsome
    exact ⟨p, hp, rfl, rfl, hpos⟩
  · rw [if_neg hpos] at hsome
    cases hsome

theorem fallback_groups_score {groups : List (String × GroupData)} {g : GroupInfo}
    (h : g ∈ fallback_groups groups) : g.relevance_score = 0 := by
  obtain ⟨k, -, hsome⟩ := List.mem_filterMap.mp h
  cases hlk : groups.lookup k with
  | none => rw [hlk] at hsome; cases hsome
  | some gd =>
    rw [hlk] at hsome
    obtain rfl := Option.some.injEq .. |>.mp hsome
    rfl

/-! ## Claim C5 -/

/-- C5: the relevant-group list never exceeds 5 entries; it is sorted by
relevance score descending; when some group scores above 0, equal-score runs
keep discovery order (the returned list filtered to one score is a prefix of
the candidates in discovery order filtered to that score) and every returned
entry carries the score of its source group (distinct-query-word keyword hits
plus 2 per query word occurring in the display label, per `relevance_score`);
and on "billing contact" the Billing Information group (score 3) ranks above
Customer Success (score 1). -/
theorem claim_C5_group_relevance :
    (∀ (hcache : List (String × HierData)) (object_type user_query : String),
        (_identify_relevant_groups hcache object_type user_query).length ≤ 5)
    ∧ (∀ (hcache : List (String × HierData)) (object_type user_query : String),
        (_identify_relevant_groups hcache object_type user_query).Pairwise
          (fun a b => b.relevance_score ≤ a.relevance_score))
    ∧ (∀ (hcache : List (String × HierData)) (object_type user_query : String),
        scored_candidates (query_words user_query) (hier_groups hcache object_type) ≠ [] →
        (∀ s : Nat, (_identify_relevant_groups hcache object_type user_query).filter
              (fun g => g.relevance_score == s)
            <+: (scored_candidates (query_words user_query)
                  (hier_groups hcache object_type)).filter fun g => g.relevance_score == s)
        ∧ ∀ g ∈ _identify_relevant_groups hcache object_type user_query,
            ∃ p ∈ hier_groups hcache object_type,
              g.name = p.1
                ∧ g.relevance_score = relevance_score (query_words user_query) p.2
                ∧ relevance_score (query_words user_query) p.2 > 0)
    ∧ (_identify_relevant_groups c5_cache "companies" "billing contact").map GroupInfo.name
        = ["billing_information", "customer_success"]
    ∧ (_identify_relevant_groups c5_cache "companies" "billing contact").map
        GroupInfo.relevance_score = [3, 1] := by
  refine ⟨?_, ?_, ?_, by decide, by decide⟩
  · intro hcache object_type user_query
    exact List.length_take_le _ _
  · intro hcache object_type user_query
    refine List.Pairwise.sublist (List.take_sublist _ _) ?_
    split
    · apply List.pairwise_of_forall_mem_list
      intro a ha b hb
      rw [fallback_groups_score ha, fallback_groups_score hb]
    · exact pairwise_sort_by_score
  · intro hcache object_type user_query hne
    have hsorted_ne : sort_by_score_desc (scored_candidates (query_words user_query)
        (hier_groups hcache object_type)) ≠ [] := by
      intro h0
      apply hne
      have hlen := sort_by_score_length
        (l := scored_candidates (query_words user_query) (hier_groups hcache object_type))
      rw [h0] at hlen
      exact List.length_eq_zero.mp hlen.symm
    have hid : _identify_relevant_groups hcache object_type user_query
        = (sort_by_score_desc (scored_candidates (query_words user_query)
            (hier_groups hcache object_type))).take 5 := by
      simp only [_identify_relevant_groups, List.isEmpty_eq_false.mpr hsorted_ne,
        Bool.false_eq_true, if_false]
    constructor
    · intro s
      rw [hid]
      have h1 := (List.take_prefix 5 (sort_by_score_desc (scored_candidates
          (query_words user_query) (hier_groups hcache object_type)))).filter
        fun g => g.relevance_score == s
      rwa [filter_sort_by_score] at h1
    · intro g hg
      rw [hid] at hg
      exact scored_candidates_mem (mem_sort_by_score.mp (List.take_subset _ _ hg))

/-- Witness for C5: the general clauses applied to the billing-contact
scenario (where the billing group scores 3 > 0). -/
theorem claim_C5_group_relevance_witness :
    (_identify_relevant_groups c5_cache "companies" "billing contact").length ≤ 5
    ∧ (_identify_relevant_groups c5_cache "companies" "billing contact").Pairwise
        (fun a b => b.relevance_score ≤ a.relevance_score)
    ∧ scored_candidates (query_words "billing contact") (hier_groups c5_cache "companies") ≠ []
    ∧ ((_identify_relevant_groups c5_cache "companies" "billing contact").filter
          (fun g => g.relevance_score == 3)
        <+: (scored_candidates (query_words "billing contact")
              (hier_groups c5_cache "companies")).filter fun g => g.relevance_score == 3) :=
  ⟨claim_C5_group_relevance.1 c5_cache "companies" "billing contact",
   claim_C5_group_relevance.2.1 c5_cache "companies" "billing contact",
   by decide,
   (claim_C5_group_relevance.2.2.1 c5_cache "companies" "billing contact" (by decide)).1 3⟩

/-! ## Claim C6 -/

/-- C6 counterexample: "companies" is a cached object type with a non-empty
group table, the query "hello" gives every group score 0, yet
`_identify_relevant_groups` returns the empty list — the fallback adds nothing
because none of the fixed common group keys exists in this cache, so the
"always non-empty search scope" guarantee fails. -/
theorem claim_C6_counterexample :
    hier_groups no_common_cache "companies" ≠ []
    ∧ (∀ p ∈ hier_groups no_common_cache "companies",
        relevance_score (query_words "hello") p.2 = 0)
    ∧ _identify_relevant_groups no_common_cache "companies" "hello" = [] := by
  decide

/-- C6 (amended): when no group scores above 0, the resolver returns the fixed
fallback priority list restricted to the common group keys present in the
cache, every entry with score 0; the list is non-empty provided at least one
common key exists in the cached groups. -/
theorem claim_C6_fallback (hcache : List (String × HierData))
    (object_type user_query : String)
    (hno : ∀ p ∈ hier_groups hcache object_type,
        relevance_score (query_words user_query) p.2 = 0)
    (hex : ∃ k ∈ common_groups, ((hier_groups hcache object_type).lookup k).isSome) :
    _identify_relevant_groups hcache object_type user_query
      = (fallback_groups (hier_groups hcache object_type)).take 5
    ∧ _identify_relevant_groups hcache object_type user_query ≠ []
    ∧ ∀ g ∈ _identify_relevant_groups hcache object_type user_query,
        g.relevance_score = 0 := by
  have hcand : scored_candidates (query_words user_query) (hier_groups hcache object_type)
      = [] := by
    apply List.filterMap_eq_nil_iff.mpr
    intro p hp
    rw [if_neg]
    simp [hno p hp]
  have hid : _identify_relevant_groups hcache object_type user_query
      = (fallback_groups (hier_groups hcache object_type)).take 5 := by
    simp only [_identify_relevant_groups, hcand]
    rfl
  refine ⟨hid, ?_, ?_⟩
  · obtain ⟨k, hk, hsome⟩ := hex
    cases hlk : (hier_groups hcache object_type).lookup k with
    | none => rw [hlk] at hsome; cases hsome
    | some gd =>
      have hfb : (⟨k, gd.display_name, gd.properties, gd.property_count, 0, []⟩ : GroupInfo)
          ∈ fallback_groups (hier_groups hcache object_type) := by
        apply List.mem_filterMap.mpr
        exact ⟨k, hk, by rw [hlk]; rfl⟩
      rw [hid]
      intro h0
      rcases List.take_eq_nil_iff.mp h0 with h | h
      · cases h
      · rw [h] at hfb
        cases hfb
  · intro g hg
    rw [hid] at hg
    exact fallback_groups_score (List.take_subset _ _ hg)

/-- Witness for C6's amended theorem: the cache holding `c5_groups` contains
the common key "billing_information", so the zero-scoring query "hello" falls
back to a non-empty fixed list. -/
theorem claim_C6_fallback_witness :
    (∀ p ∈ hier_groups c5_cache "companies",
        relevance_score (query_words "hello") p.2 = 0)
    ∧ _identify_relevant_groups c5_cache "companies" "hello"
        = (fallback_groups (hier_groups c5_cache "companies")).take 5
    ∧ _identify_relevant_groups c5_cache "companies" "hello" ≠ [] :=
  ⟨by decide,
   (claim_C6_fallback c5_cache "companies" "hello" (by decide)
     ⟨"billing_information", by decide, by decide⟩).1,
   (claim_C6_fallback c5_cache "companies" "hello" (by decide)
     ⟨"billing_information", by decide, by decide⟩).2.1⟩

end HubSpot
